import Mathlib

/-!
Verification development for the RefStat repository (src/RefStat.py and
src/app.py): a shallow embedding of the filtering, aggregation and
summary-statistics engine, together with theorems settling the spec claims.

Modelling conventions.
* Calendar dates are ordinal day numbers (`Int`); pandas timestamps obtained
  from day-precision data compare exactly like their day numbers.
* A raw date cell or bound is `RawDate`: either a parseable date or not.
  `to_datetime` models `pd.to_datetime` on one value, with `none` standing for
  a raised parse error (or `NaT` under `errors='coerce'`).
* Match counts and thresholds are `Int` (pandas int64; overflow is irrelevant
  at the dataset sizes involved, so no modular arithmetic is modelled).
* Fallible functions return `Option`: `none` models the error path
  (an exception propagating, or the `except` branch returning `None, None`).
* `pandas.DataFrame.groupby` with default `sort=True` emits the groups in
  ascending key order; this is modelled by sorting the deduplicated keys.
* `sort_values(ascending=False)` is modelled as a stable descending sort
  (`List.insertionSort`): ties keep the order of the input table (which is
  the key-sorted group table).  pandas' default sort kind leaves the tie
  order formally unspecified, but on the small grouped tables involved it
  coincides with the stable order, and none of the refuted claims depend on
  this choice: the group table handed to the sort is already in
  ascending-name order, so first-appearance information is gone before the
  sort runs.  The ascending key sort of `groupby` is algorithm-independent
  (its keys are distinct, so the sorted result is unique).
-/

/-- Lexicographic (code-point) strict comparison of character lists: the order
Python uses on `str` values, hence the order pandas emits sorted group keys
in.  Defined structurally so that concrete instances evaluate by `decide`. -/
def lexLt : List Char → List Char → Bool
  | [], [] => false
  | [], _ :: _ => true
  | _ :: _, [] => false
  | a :: as, b :: bs => if a < b then true else if b < a then false else lexLt as bs

/-- Python string order `a ≤ b` (code-point lexicographic), as a proposition. -/
def StrLE (a b : String) : Prop := lexLt b.data a.data = false

/-- Python string order `a < b` (code-point lexicographic), as a proposition. -/
def StrLT (a b : String) : Prop := lexLt a.data b.data = true

instance : DecidableRel StrLE := fun a b =>
  decidable_of_iff (lexLt b.data a.data = false) Iff.rfl

instance : DecidableRel StrLT := fun a b =>
  decidable_of_iff (lexLt a.data b.data = true) Iff.rfl

theorem lexLt_asymm : ∀ (a b : List Char), lexLt a b = true → lexLt b a = false
  | [], [] => fun h => by simpa [lexLt] using h
  | [], _ :: _ => fun _ => by simp [lexLt]
  | _ :: _, [] => fun h => by simpa [lexLt] using h
  | a :: as, b :: bs => fun h => by
    by_cases hab : a < b
    · simp [lexLt, hab, lt_asymm hab]
    · by_cases hba : b < a
      · simp [lexLt, hab, hba] at h
      · have h' : lexLt as bs = true := by simpa [lexLt, hab, hba] using h
        simp [lexLt, hab, hba, lexLt_asymm as bs h']

theorem lexLt_trans : ∀ (a b c : List Char),
    lexLt a b = true → lexLt b c = true → lexLt a c = true
  | a, [], _ => fun h _ => by cases a <;> simp [lexLt] at h
  | [], _ :: _, [] => fun _ h => by simpa [lexLt] using h
  | [], _ :: _, _ :: _ => fun _ _ => by simp [lexLt]
  | _ :: _, _ :: _, [] => fun _ h => by simpa [lexLt] using h
  | a :: as, b :: bs, c :: cs => fun h1 h2 => by
    by_cases hab : a < b
    · by_cases hbc : b < c
      · simp [lexLt, lt_trans hab hbc]
      · by_cases hcb : c < b
        · simp [lexLt, hbc, hcb] at h2
        · have : b = c := le_antisymm (not_lt.mp hcb) (not_lt.mp hbc)
          simp [lexLt, this ▸ hab]
    · by_cases hba : b < a
      · simp [lexLt, hab, hba] at h1
      · have hab' : a = b := le_antisymm (not_lt.mp hba) (not_lt.mp hab)
        by_cases hbc : b < c
        · simp [lexLt, hab' ▸ hbc]
        · by_cases hcb : c < b
          · simp [lexLt, hbc, hcb] at h2
          · have hbc' : b = c := le_antisymm (not_lt.mp hcb) (not_lt.mp hbc)
            have t1 : lexLt as bs = true := by simpa [lexLt, hab, hba] using h1
            have t2 : lexLt bs cs = true := by simpa [lexLt, hbc, hcb] using h2
            have hac : a = c := hab'.trans hbc'
            simp [lexLt, hac ▸ lt_irrefl a, lexLt_trans as bs cs t1 t2, hac]

theorem lexLt_connex : ∀ (a b : List Char),
    lexLt a b = false → lexLt b a = false → a = b
  | [], [] => fun _ _ => rfl
  | [], _ :: _ => fun h _ => by simp [lexLt] at h
  | _ :: _, [] => fun _ h => by simp [lexLt] at h
  | a :: as, b :: bs => fun h1 h2 => by
    by_cases hab : a < b
    · simp [lexLt, hab] at h1
    · by_cases hba : b < a
      · simp [lexLt, hba] at h2
      · have hk : a = b := le_antisymm (not_lt.mp hba) (not_lt.mp hab)
        have r1 : lexLt as bs = false := by simpa [lexLt, hab, hba] using h1
        have r2 : lexLt bs as = false := by simpa [lexLt, hab, hba] using h2
        rw [hk, lexLt_connex as bs r1 r2]

instance : IsTotal String StrLE := ⟨fun a b => by
  by_cases h : lexLt b.data a.data = false
  · exact Or.inl h
  · exact Or.inr (lexLt_asymm _ _ (by simpa using h))⟩

instance : IsTrans String StrLE := ⟨fun a b c h1 h2 => by
  by_contra hzx
  have hzx' : lexLt c.data a.data = true := by simpa [StrLE] using hzx
  by_cases hyz : lexLt b.data c.data = true
  · exact absurd (lexLt_trans _ _ _ hyz hzx') (by simpa [StrLE] using h1)
  · have : b.data = c.data := lexLt_connex _ _ (by simpa using hyz) h2
    exact absurd (this ▸ hzx') (by simpa [StrLE] using h1)⟩

instance : IsAntisymm String StrLE := ⟨fun a b h1 h2 => by
  cases a; cases b
  exact congrArg String.mk (lexLt_connex _ _ h2 h1)⟩

/-- A raw date value: either a parseable calendar date (as an ordinal day
number) or an unparseable cell. -/
inductive RawDate where
  | valid (day : Int)
  | invalid
deriving DecidableEq, Repr

/-- `pd.to_datetime` on one value: `none` models a parse failure
(an exception, or `NaT` when called with coercing error handling). -/
def to_datetime : RawDate → Option Int
  | .valid d => some d
  | .invalid => none

/-- One row of the dataframe RefStat.py works on, after loading: the `Date`
column has already been converted with coercing error handling (`none` = NaT),
and the guaranteed columns `Domare` (referee) and `Matcher` (match count) are
present.  `sport` and `district` carry the optional columns' values; they are
meaningful only when the enclosing frame says the column exists. -/
structure Row where
  date : Option Int
  domare : String
  matcher : Int
  sport : String
  district : String
deriving DecidableEq, Repr

/-- The dataframe RefStat.py's `filter_data_by_date` receives: its rows plus
which optional categorical columns the dataset actually carries. -/
structure Frame where
  hasSport : Bool
  hasDistrict : Bool
  rows : List Row
deriving DecidableEq, Repr

/-- Sum of the `Matcher` column over the rows of a (Domare, Matcher) pair list
whose `Domare` equals `k`: the per-group sum of `groupby("Domare")["Matcher"].sum()`. -/
def sumFor (pairs : List (String × Int)) (k : String) : Int :=
  ((pairs.filter (fun p => p.1 == k)).map (fun p => p.2)).sum

/-- `groupby("Domare")["Matcher"].sum().reset_index()`: one output row per
distinct referee, in ascending key order (pandas groups are sorted by key by
default), carrying the summed match count. -/
def groupbySum (pairs : List (String × Int)) : List (String × Int) :=
  (((pairs.map (fun p => p.1)).dedup).insertionSort StrLE).map
    (fun k => (k, sumFor pairs k))

/-- `sort_values(by="Matcher", ascending=False).reset_index(drop=True)`:
descending by summed match count, ties keeping the input (key-sorted) order. -/
def sortDesc (t : List (String × Int)) : List (String × Int) :=
  t.insertionSort (fun a b => b.2 ≤ a.2)

/-- Python truthiness of `sport and sport != "Alla"`: an optional categorical
criterion is active when present, non-empty and not the "Alla" sentinel. -/
def catActive : Option String → Bool
  | none => false
  | some s => !(s == "") && !(s == "Alla")

/-- Python truthiness of `min_matches and min_matches > 0`: the threshold is
active when present and strictly positive (`0` is falsy, so a zero threshold
is skipped). -/
def mmActive : Option Int → Bool
  | none => false
  | some m => decide (0 < m)

/-- The date-range mask `(Date >= start) & (Date <= end)` on one row; a `NaT`
date compares false on both sides and is dropped. -/
def dateKeep (s e : Int) (r : Row) : Bool :=
  match r.date with
  | some d => decide (s ≤ d) && decide (d ≤ e)
  | none => false

/-- One optional categorical filter step of RefStat.py's `filter_data_by_date`.
When the criterion is active but the dataset lacks the column, the pandas
column access raises `KeyError`, which the surrounding `except` turns into the
error result: modelled as `none`.  When inactive the rows pass unchanged. -/
def applyCat (active : Bool) (hasCol : Bool) (val : String)
    (proj : Row → String) (rows : List Row) : Option (List Row) :=
  if active then
    if hasCol then some (rows.filter (fun r => proj r == val)) else none
  else some rows

/-- Projection of the columns the aggregation reads. -/
def rowPairs (rows : List Row) : List (String × Int) :=
  rows.map (fun r => (r.domare, r.matcher))

/-- RefStat.py `filter_data_by_date` (lines 113-144).  Returns the grouped,
threshold-filtered, descending-sorted (Domare, Matcher) table together with
the filtered raw rows; `none` models every error exit (`df is None`, an
unparseable date bound, or a `KeyError` from filtering on an absent column —
the code's `except` returns the null result in each case). -/
def RefStat.filter_data_by_date (df : Option Frame) (start_date end_date : RawDate)
    (sport district : Option String) (min_matches : Option Int) :
    Option (List (String × Int) × List Row) := do
  let df ← df
  let s ← to_datetime start_date
  let e ← to_datetime end_date
  let f1 := df.rows.filter (dateKeep s e)
  let f2 ← applyCat (catActive sport) df.hasSport (sport.getD "") (fun r => r.sport) f1
  let f3 ← applyCat (catActive district) df.hasDistrict (district.getD "")
    (fun r => r.district) f2
  let grouped := groupbySum (rowPairs f3)
  let grouped2 := if mmActive min_matches then
      grouped.filter (fun p => decide (min_matches.getD 0 ≤ p.2))
    else grouped
  return (sortDesc grouped2, f3)

/-- The statistics record built by `generate_referee_stats`. -/
structure Stats where
  total_matches : Int
  total_referees : Nat
  avg_matches : Rat
  most_active : String
  most_active_count : Int
deriving DecidableEq, Repr

/-- RefStat.py `generate_referee_stats` (lines 147-167).  It reads only the
`Domare` and `Matcher` columns of its input frame, so it is embedded over the
list of (Domare, Matcher) pairs.  On `None` or an empty frame it returns
`None` (modelled `none`); note that in `main` (line 372) it is invoked on the
grouped leaderboard `result`, not on the raw filtered rows. -/
def generate_referee_stats (t : List (String × Int)) : Option Stats :=
  if t.isEmpty then none
  else
    let total : Int := (t.map (fun p => p.2)).sum
    let nref : Nat := ((t.map (fun p => p.1)).dedup).length
    let most := sortDesc (groupbySum t)
    some { total_matches := total
           total_referees := nref
           avg_matches := if 0 < nref then (total : Rat) / (nref : Rat) else 0
           most_active := match most with | [] => "N/A" | p :: _ => p.1
           most_active_count := match most with | [] => 0 | p :: _ => p.2 }

/-- The summary `main` displays: `generate_referee_stats` applied to the first
component (the grouped leaderboard) of `filter_data_by_date`'s result
(RefStat.py lines 342-372). -/
def RefStat.mainStats (df : Option Frame) (start_date end_date : RawDate)
    (sport district : Option String) (min_matches : Option Int) : Option Stats := do
  let r ← RefStat.filter_data_by_date df start_date end_date sport district min_matches
  generate_referee_stats r.1

/-- One row of the dataframe app.py works on: the `Date` column is still raw
(app.py converts it inside the filter, without coercing error handling). -/
structure AppRow where
  dateStr : RawDate
  domare : String
  matcher : Int
deriving DecidableEq, Repr

/-- app.py `filter_data_by_date` (lines 10-27).  Builds a temporary converted
date column — `pd.to_datetime` here raises on the first unparseable cell and
the function has no handler, so the whole call fails (`none`) — then filters
the inclusive date range, groups by referee, sums and sorts descending. -/
def App.filter_data_by_date (rows : List AppRow) (start_date end_date : RawDate) :
    Option (List (String × Int)) :=
  if rows.all (fun r => (to_datetime r.dateStr).isSome) then
    match to_datetime start_date, to_datetime end_date with
    | some s, some e =>
      let temp := rows.map (fun r => (r, (to_datetime r.dateStr).getD 0))
      let kept := temp.filter (fun rd => decide (s ≤ rd.2) && decide (rd.2 ≤ e))
      some (sortDesc (groupbySum (kept.map (fun rd => (rd.1.domare, rd.1.matcher)))))
    | _, _ => none
  else none

example : groupbySum [("B", 5), ("A", 5)] = [("A", 5), ("B", 5)] := by decide
example : sortDesc [("A", 5), ("B", 5)] = [("A", 5), ("B", 5)] := by decide

/-! ### Unfolding lemmas for the RefStat filter -/

/-- With valid date bounds and no optional criteria, the RefStat filter
succeeds and returns the ranked group table over the date-filtered rows,
together with those rows. -/
theorem filter_noCriteria (df : Frame) (s e : Int) :
    RefStat.filter_data_by_date (some df) (.valid s) (.valid e) none none none =
      some (sortDesc (groupbySum (rowPairs (df.rows.filter (dateKeep s e)))),
        df.rows.filter (dateKeep s e)) := rfl

/-- Inversion of a successful RefStat filter run: the filtered rows come from
the date mask followed by the two categorical steps, and the table is the
sorted, optionally thresholded group table over them. -/
theorem filter_inv {df : Frame} {s e : Int} {sport district : Option String}
    {mm : Option Int} {t : List (String × Int)} {fr : List Row}
    (h : RefStat.filter_data_by_date (some df) (.valid s) (.valid e) sport district mm
      = some (t, fr)) :
    ∃ f2, applyCat (catActive sport) df.hasSport (sport.getD "") (fun r => r.sport)
        (df.rows.filter (dateKeep s e)) = some f2 ∧
      applyCat (catActive district) df.hasDistrict (district.getD "")
        (fun r => r.district) f2 = some fr ∧
      t = sortDesc (if mmActive mm then
          (groupbySum (rowPairs fr)).filter (fun p => decide (mm.getD 0 ≤ p.2))
        else groupbySum (rowPairs fr)) := by
  simp only [RefStat.filter_data_by_date, to_datetime, Option.bind_eq_bind,
    Option.some_bind] at h
  cases h2 : applyCat (catActive sport) df.hasSport (sport.getD "") (fun r => r.sport)
      (df.rows.filter (dateKeep s e)) with
  | none => rw [h2] at h; simp at h
  | some f2 =>
    rw [h2] at h
    simp only [Option.some_bind] at h
    cases h3 : applyCat (catActive district) df.hasDistrict (district.getD "")
        (fun r => r.district) f2 with
    | none => rw [h3] at h; simp at h
    | some f3 =>
      rw [h3] at h
      simp only [Option.some_bind, pure, Option.some.injEq, Prod.mk.injEq] at h
      exact ⟨f2, rfl, by rw [h3, h.2], by rw [← h.1, h.2]⟩

/-! ### C3: inclusive date bounds -/

/-- C3: with parseable startDate and endDate, the RefStat filter keeps a
record iff startDate ≤ date ≤ endDate at day granularity; a record dated
exactly on a bound is kept (for a well-formed range), and a record one day
outside either bound is excluded. -/
theorem C3_date_filter_inclusive (df : Frame) (s e d : Int) (r : Row)
    (t : List (String × Int)) (fr : List Row)
    (hres : RefStat.filter_data_by_date (some df) (.valid s) (.valid e)
      none none none = some (t, fr))
    (hr : r ∈ df.rows) (hd : r.date = some d) :
    (r ∈ fr ↔ s ≤ d ∧ d ≤ e) ∧
    (s ≤ e → (d = s ∨ d = e) → r ∈ fr) ∧
    ((d = s - 1 ∨ d = e + 1) → r ∉ fr) := by
  rw [filter_noCriteria] at hres
  simp only [Option.some.injEq, Prod.mk.injEq] at hres
  have hfr : fr = df.rows.filter (dateKeep s e) := hres.2.symm
  have hmain : r ∈ fr ↔ s ≤ d ∧ d ≤ e := by
    subst hfr
    simp [List.mem_filter, hr, dateKeep, hd]
  refine ⟨hmain, ?_, ?_⟩
  · rintro hse (rfl | rfl) <;> exact hmain.mpr ⟨by omega, by omega⟩
  · rintro (rfl | rfl) hmem <;> · have := hmain.mp hmem; omega

/-- Witness for C3 at a concrete input: the boundary record dated exactly on
the start bound is kept. -/
theorem C3_date_filter_inclusive_witness :
    (⟨some 5, "A", 3, "", ""⟩ : Row) ∈
        [(⟨some 5, "A", 3, "", ""⟩ : Row)].filter (dateKeep 5 7) ↔
      (5 : Int) ≤ 5 ∧ (5 : Int) ≤ 7 :=
  (C3_date_filter_inclusive ⟨false, false, [⟨some 5, "A", 3, "", ""⟩]⟩ 5 7 5
    ⟨some 5, "A", 3, "", ""⟩ _ _ rfl (by decide) rfl).1

/-! ### C4: the minMatches threshold gates aggregated totals -/

/-- C4: `minMatches = 0` is a no-op, and a strictly positive threshold `m`
keeps exactly the referee groups whose aggregated total is at least `m`
(membership in the output table is decided by the summed total, never by
individual raw rows). -/
theorem C4_minMatches_threshold :
    (∀ (df : Option Frame) (sd ed : RawDate) (sport district : Option String),
      RefStat.filter_data_by_date df sd ed sport district (some 0) =
        RefStat.filter_data_by_date df sd ed sport district none) ∧
    (∀ (df : Frame) (s e : Int) (sport district : Option String) (m : Int), 0 < m →
      ∀ (t : List (String × Int)) (fr : List Row),
        RefStat.filter_data_by_date (some df) (.valid s) (.valid e) sport district (some m)
          = some (t, fr) →
        ∀ p : String × Int, p ∈ t ↔ p ∈ groupbySum (rowPairs fr) ∧ m ≤ p.2) := by
  constructor
  · intro df sd ed sport district
    cases df with
    | none => rfl
    | some df =>
      cases sd with
      | invalid => rfl
      | valid s =>
        cases ed with
        | invalid => rfl
        | valid e =>
          have h0 : mmActive (some 0) = false := by decide
          have h1 : mmActive (none : Option Int) = false := rfl
          simp only [RefStat.filter_data_by_date, h0, h1, Bool.false_eq_true, if_false]
  · intro df s e sport district m hm t fr hres p
    obtain ⟨f2, h2, h3, ht⟩ := filter_inv hres
    have hact : mmActive (some m) = true := by
      simp [mmActive, hm]
    rw [ht, hact]
    simp only [if_true, sortDesc, List.mem_insertionSort, List.mem_filter,
      Option.getD_some, decide_eq_true_eq]

/-- Witness for C4 at a concrete input: with threshold 4, the referee whose
rows are 2 and 3 (sum 5 ≥ 4) is kept, the referee with a single row of 3 is
dropped. -/
theorem C4_minMatches_threshold_witness :
    (0 : Int) < 4 ∧
      ((("A", 5) : String × Int) ∈ [(("A", 5) : String × Int)] ↔
        ("A", 5) ∈ groupbySum (rowPairs
          [⟨some 1, "A", 2, "", ""⟩, ⟨some 2, "B", 3, "", ""⟩,
            ⟨some 3, "A", 3, "", ""⟩]) ∧ (4 : Int) ≤ 5) :=
  ⟨by decide,
    C4_minMatches_threshold.2
      ⟨false, false, [⟨some 1, "A", 2, "", ""⟩, ⟨some 2, "B", 3, "", ""⟩,
        ⟨some 3, "A", 3, "", ""⟩]⟩
      0 10 none none 4 (by decide) [("A", 5)]
      [⟨some 1, "A", 2, "", ""⟩, ⟨some 2, "B", 3, "", ""⟩, ⟨some 3, "A", 3, "", ""⟩]
      (by decide) ("A", 5)⟩

/-! ### C5: a supplied categorical filter on an absent column -/

/-- C5 counterexample: on a dataset lacking the Sport column, supplying a
sport value makes the filter fail (the `KeyError` is caught and the error
result returned), while the same call without the criterion succeeds — the
two results differ, refuting the claimed always-pass behaviour. -/
theorem C5_absent_column_counterexample :
    RefStat.filter_data_by_date
        (some ⟨false, false, [⟨some 1, "A", 3, "", ""⟩]⟩)
        (.valid 0) (.valid 10) (some "Innebandy") none none = none ∧
      RefStat.filter_data_by_date
        (some ⟨false, false, [⟨some 1, "A", 3, "", ""⟩]⟩)
        (.valid 0) (.valid 10) none none none =
        some ([("A", 3)], [⟨some 1, "A", 3, "", ""⟩]) := by decide

/-- C5 amended: when a categorical filter value is supplied (active, i.e.
non-empty and not "Alla") but the corresponding column is absent from the
dataset, the filter invocation fails with the error result, rather than
treating that dimension as always-pass. -/
theorem C5_absent_column_fails (df : Frame) (sd ed : RawDate)
    (sport district : Option String) (mm : Option Int) :
    (catActive sport = true → df.hasSport = false →
      RefStat.filter_data_by_date (some df) sd ed sport district mm = none) ∧
    (catActive district = true → df.hasDistrict = false →
      RefStat.filter_data_by_date (some df) sd ed sport district mm = none) := by
  constructor
  · intro hs hcol
    cases sd with
    | invalid => rfl
    | valid s =>
      cases ed with
      | invalid => rfl
      | valid e =>
        simp [RefStat.filter_data_by_date, to_datetime, applyCat, hs, hcol]
  · intro hd hcol
    cases sd with
    | invalid => rfl
    | valid s =>
      cases ed with
      | invalid => rfl
      | valid e =>
        cases happ : applyCat (catActive sport) df.hasSport (sport.getD "")
            (fun r => r.sport) (df.rows.filter (dateKeep s e)) with
        | none => simp [RefStat.filter_data_by_date, to_datetime, happ]
        | some f2 =>
          simp [RefStat.filter_data_by_date, to_datetime, happ, applyCat, hd, hcol]

/-- Witness for C5's amended theorem at a concrete input. -/
theorem C5_absent_column_fails_witness :
    catActive (some "Innebandy") = true ∧ (false : Bool) = false ∧
      RefStat.filter_data_by_date
        (some ⟨false, true, [⟨some 1, "A", 3, "", ""⟩]⟩)
        (.valid 0) (.valid 10) (some "Innebandy") none none = none :=
  ⟨by decide, rfl,
    (C5_absent_column_fails ⟨false, true, [⟨some 1, "A", 3, "", ""⟩]⟩
      (.valid 0) (.valid 10) (some "Innebandy") none none).1 (by decide) rfl⟩

/-! ### C6: which inputs make the filter fail -/

/-- C6 counterexample: both date bounds are parseable, yet the filter fails
(sport criterion supplied, Sport column absent) — refuting the claim that the
filter fails only on an unparseable date bound. -/
theorem C6_error_only_dates_counterexample :
    to_datetime (.valid 0) = some 0 ∧ to_datetime (.valid 10) = some 10 ∧
      RefStat.filter_data_by_date (some ⟨false, false, [⟨some 1, "A", 3, "", ""⟩]⟩)
        (.valid 0) (.valid 10) (some "X") none none = none := by decide

/-- C6 amended: on a non-null frame, the filter fails exactly when a date
bound is unparseable or an active categorical criterion names a column the
dataset lacks; in particular an empty result is never an error (an empty
frame with parseable bounds and satisfiable criteria yields `some`). -/
theorem C6_error_characterization (df : Frame) (sd ed : RawDate)
    (sport district : Option String) (mm : Option Int) :
    RefStat.filter_data_by_date (some df) sd ed sport district mm = none ↔
      (to_datetime sd = none ∨ to_datetime ed = none ∨
        (catActive sport = true ∧ df.hasSport = false) ∨
        (catActive district = true ∧ df.hasDistrict = false)) := by
  cases sd with
  | invalid => simp [RefStat.filter_data_by_date, to_datetime]
  | valid s =>
    cases ed with
    | invalid => simp [RefStat.filter_data_by_date, to_datetime]
    | valid e =>
      by_cases hsp : catActive sport = true <;>
        by_cases hcs : df.hasSport = true <;>
        by_cases hdi : catActive district = true <;>
        by_cases hcd : df.hasDistrict = true <;>
        simp_all [RefStat.filter_data_by_date, to_datetime, applyCat]

/-! ### C7: behaviour on an empty filtered population -/

/-- C7 counterexample: on an empty filtered population, the aggregation does
return an empty table, but the summarizer returns the bare `None` sentinel
for the whole summary — not a populated record with zero totals and sentinel
most-active fields as claimed. -/
theorem C7_empty_sentinel_counterexample :
    RefStat.filter_data_by_date (some ⟨false, false, []⟩) (.valid 0) (.valid 10)
        none none none = some ([], []) ∧
      RefStat.mainStats (some ⟨false, false, []⟩) (.valid 0) (.valid 10)
        none none none = none := by decide

/-- C7 amended: whenever a filter invocation succeeds with an empty filtered
row sequence, the aggregated table is empty (not an error), and the
summarizer as invoked by `main` returns the `None` sentinel for the whole
summary rather than a populated record. -/
theorem C7_empty_filtered_amended (df : Frame) (sd ed : RawDate)
    (sport district : Option String) (mm : Option Int)
    (t : List (String × Int)) (fr : List Row)
    (hres : RefStat.filter_data_by_date (some df) sd ed sport district mm = some (t, fr))
    (hfr : fr = []) : t = [] ∧ generate_referee_stats t = none := by
  cases sd with
  | invalid => simp [RefStat.filter_data_by_date, to_datetime] at hres
  | valid s =>
    cases ed with
    | invalid => simp [RefStat.filter_data_by_date, to_datetime] at hres
    | valid e =>
      subst hfr
      obtain ⟨f2, h2, h3, ht⟩ := filter_inv hres
      have hts : t = [] := by
        rw [ht]
        simp [groupbySum, rowPairs, sortDesc, List.dedup_nil]
      exact ⟨hts, by rw [hts]; rfl⟩

/-- Witness for C7's amended theorem at a concrete input: a frame whose only
record lies outside the date range filters to the empty population. -/
theorem C7_empty_filtered_amended_witness :
    ([] : List (String × Int)) = [] ∧
      generate_referee_stats ([] : List (String × Int)) = none :=
  C7_empty_filtered_amended ⟨false, false, [⟨some 99, "A", 3, "", ""⟩]⟩
    (.valid 0) (.valid 10) none none none [] [] (by decide) rfl

/-! ### Conservation of totals through grouping -/

theorem sumFor_cons (p : String × Int) (ps : List (String × Int)) (k : String) :
    sumFor (p :: ps) k = (if p.1 == k then p.2 else 0) + sumFor ps k := by
  by_cases h : p.1 == k <;> simp [sumFor, List.filter_cons, h]

theorem sum_map_ite_eq (v : Int) (x : String) :
    ∀ (K : List String), K.Nodup → x ∈ K →
      (K.map (fun k => if x == k then v else 0)).sum = v
  | [], _, hx => absurd hx (List.not_mem_nil x)
  | k :: K, hnd, hx => by
    by_cases hk : x = k
    · subst hk
      have hnot : x ∉ K := (List.nodup_cons.mp hnd).1
      have hz : (K.map (fun k => if x == k then v else 0)).sum = 0 := by
        apply List.sum_eq_zero
        intro y hy
        obtain ⟨k', hk', rfl⟩ := List.mem_map.mp hy
        have : ¬(x == k') = true := by
          simp only [beq_iff_eq]
          rintro rfl
          exact hnot hk'
        simp [this]
      simp only [List.map_cons, List.sum_cons, hz, add_zero]
      simp
    · have hx' : x ∈ K := by
        cases List.mem_cons.mp hx with
        | inl h => exact absurd h hk
        | inr h => exact h
      have hne : ¬(x == k) = true := by simp [beq_iff_eq, hk]
      simp only [List.map_cons, List.sum_cons, hne, if_false]
      rw [sum_map_ite_eq v x K (List.nodup_cons.mp hnd).2 hx']
      simp

theorem sum_map_sumFor (pairs : List (String × Int)) :
    ∀ (K : List String), K.Nodup → (∀ p ∈ pairs, p.1 ∈ K) →
      (K.map (sumFor pairs)).sum = (pairs.map (fun p => p.2)).sum := by
  induction pairs with
  | nil =>
    intro K _ _
    have : K.map (sumFor []) = K.map (fun _ => (0 : Int)) := by
      apply List.map_congr_left
      intro k _
      rfl
    simp [this]
  | cons p ps ih =>
    intro K hnd hmem
    have hmap : K.map (sumFor (p :: ps)) =
        K.map (fun k => (if p.1 == k then p.2 else 0) + sumFor ps k) := by
      apply List.map_congr_left
      intro k _
      exact sumFor_cons p ps k
    rw [hmap, List.sum_map_add, sum_map_ite_eq p.2 p.1 K hnd (hmem p (List.mem_cons_self p ps)),
      ih K hnd (fun q hq => hmem q (List.mem_cons_of_mem p hq))]
    simp

/-- Grouping conserves the total match count: the summed totals of the group
table equal the sum of the match counts of the underlying rows. -/
theorem sum_groupbySum (pairs : List (String × Int)) :
    ((groupbySum pairs).map (fun p => p.2)).sum = (pairs.map (fun p => p.2)).sum := by
  have h1 : (groupbySum pairs).map (fun p => p.2) =
      (((pairs.map (fun p => p.1)).dedup).insertionSort StrLE).map (sumFor pairs) := by
    unfold groupbySum
    rw [List.map_map]
    rfl
  have h2 : List.Perm
      ((((pairs.map (fun p => p.1)).dedup).insertionSort StrLE).map (sumFor pairs))
      (((pairs.map (fun p => p.1)).dedup).map (sumFor pairs)) :=
    (List.perm_insertionSort _ _).map _
  rw [h1, h2.sum_eq]
  exact sum_map_sumFor pairs _ (List.nodup_dedup _)
    (fun p hp => List.mem_dedup.mpr (List.mem_map_of_mem _ hp))

/-- The descending sort permutes the table, so it conserves the summed totals. -/
theorem sum_sortDesc (t : List (String × Int)) :
    ((sortDesc t).map (fun p => p.2)).sum = (t.map (fun p => p.2)).sum :=
  ((List.perm_insertionSort _ t).map _).sum_eq

theorem generate_referee_stats_total (t : List (String × Int)) (st : Stats)
    (h : generate_referee_stats t = some st) :
    st.total_matches = (t.map (fun p => p.2)).sum := by
  unfold generate_referee_stats at h
  by_cases he : t.isEmpty
  · simp [he] at h
  · simp only [he, Bool.false_eq_true, if_false, Option.some.injEq] at h
    rw [← h]

/-! ### C2: which population the period summary is computed over -/

/-- C2 counterexample: referee A has total 1, referee B total 5, threshold 2.
The pre-threshold per-referee totals sum to 6, but the summary computed by
`main` reports totalMatches = 5: the summary is taken over the post-threshold
leaderboard, not over the full filtered population as claimed. -/
theorem C2_conservation_counterexample :
    (RefStat.mainStats (some ⟨false, false,
          [⟨some 1, "A", 1, "", ""⟩, ⟨some 2, "B", 5, "", ""⟩]⟩)
        (.valid 0) (.valid 10) none none (some 2)).map Stats.total_matches = some 5 ∧
      ((groupbySum (rowPairs ([⟨some 1, "A", 1, "", ""⟩, ⟨some 2, "B", 5, "", ""⟩] :
          List Row))).map (fun p => p.2)).sum = 6 := by decide

/-- C2 corrected: the period summary is computed over the post-threshold
aggregated rows: totalMatches equals the sum of the leaderboard's totals
after the minMatches cut, and only when the threshold is inactive (absent or
zero) does it equal the sum of matchCount over all filtered records. -/
theorem C2_conservation_amended (df : Frame) (sd ed : RawDate)
    (sport district : Option String) (mm : Option Int)
    (t : List (String × Int)) (fr : List Row) (st : Stats)
    (hres : RefStat.filter_data_by_date (some df) sd ed sport district mm = some (t, fr))
    (hst : generate_referee_stats t = some st) :
    st.total_matches = (t.map (fun p => p.2)).sum ∧
      (mmActive mm = false →
        st.total_matches = (fr.map (fun r => r.matcher)).sum) := by
  have h1 := generate_referee_stats_total t st hst
  refine ⟨h1, fun hmm => ?_⟩
  cases sd with
  | invalid => simp [RefStat.filter_data_by_date, to_datetime] at hres
  | valid s =>
    cases ed with
    | invalid => simp [RefStat.filter_data_by_date, to_datetime] at hres
    | valid e =>
      obtain ⟨f2, h2, h3, ht⟩ := filter_inv hres
      rw [hmm] at ht
      simp only [Bool.false_eq_true, if_false] at ht
      rw [h1, ht, sum_sortDesc, sum_groupbySum]
      unfold rowPairs
      rw [List.map_map]
      rfl

/-- The summarizer on a one-row table (used to instantiate witnesses without
deciding rational-number equalities). -/
theorem generate_referee_stats_single (k : String) (v : Int) :
    generate_referee_stats [(k, v)] = some ⟨v, 1, (v : Rat), k, v⟩ := by
  have hsum : sumFor [(k, v)] k = v := by simp [sumFor]
  unfold generate_referee_stats
  simp [groupbySum, sortDesc, hsum]

/-- Witness for C2's amended theorem at a concrete input with no threshold:
full conservation holds there. -/
theorem C2_conservation_amended_witness :
    ((5 : Int) = ([(("A", 5) : String × Int)].map (fun p => p.2)).sum) ∧
      (mmActive none = false →
        (5 : Int) = (([⟨some 1, "A", 2, "", ""⟩, ⟨some 2, "A", 3, "", ""⟩] :
          List Row).map (fun r => r.matcher)).sum) :=
  C2_conservation_amended ⟨false, false,
      [⟨some 1, "A", 2, "", ""⟩, ⟨some 2, "A", 3, "", ""⟩]⟩
    (.valid 0) (.valid 10) none none none [("A", 5)]
    [⟨some 1, "A", 2, "", ""⟩, ⟨some 2, "A", 3, "", ""⟩]
    ⟨5, 1, (5 : Rat), "A", 5⟩ (by decide) (generate_referee_stats_single "A" 5)

/-! ### C1: tie-break order among equal totals -/

theorem lexLt_irrefl : ∀ (a : List Char), lexLt a a = false
  | [] => rfl
  | c :: cs => by simp [lexLt, lt_irrefl, lexLt_irrefl cs]

/-- In a key-sorted list containing two keys in strict order, the smaller key
occurs before the larger one. -/
theorem sublist_pair_of_sorted :
    ∀ {ks : List String}, ks.Sorted StrLE → ∀ {a b : String}, a ∈ ks → b ∈ ks →
      StrLT a b → List.Sublist [a, b] ks := by
  intro ks
  induction ks with
  | nil => intro _ a b ha _ _; exact absurd ha (List.not_mem_nil _)
  | cons x ks ih =>
    intro hs a b ha hb hab
    have hne : a ≠ b := by
      rintro rfl
      simp [StrLT, lexLt_irrefl] at hab
    by_cases hax : a = x
    · subst hax
      have hb' : b ∈ ks := by
        cases List.mem_cons.mp hb with
        | inl h => exact absurd h.symm hne
        | inr h => exact h
      exact (List.singleton_sublist.mpr hb').cons₂ a
    · have ha' : a ∈ ks := by
        cases List.mem_cons.mp ha with
        | inl h => exact absurd h hax
        | inr h => exact h
      by_cases hbx : b = x
      · subst hbx
        have hle : StrLE b a := List.rel_of_sorted_cons hs a ha'
        unfold StrLE at hle
        unfold StrLT at hab
        rw [hab] at hle
        exact absurd hle (by decide)
      · have hb' : b ∈ ks := by
          cases List.mem_cons.mp hb with
          | inl h => exact absurd h hbx
          | inr h => exact h
        exact (ih hs.of_cons ha' hb' hab).cons x

theorem mem_groupbySum {pairs : List (String × Int)} {p : String × Int}
    (hp : p ∈ groupbySum pairs) :
    p.1 ∈ ((pairs.map (fun q => q.1)).dedup).insertionSort StrLE ∧
      p.2 = sumFor pairs p.1 := by
  unfold groupbySum at hp
  obtain ⟨k, hk, rfl⟩ := List.mem_map.mp hp
  exact ⟨hk, rfl⟩

/-- Two entries of the group table with keys in strict string order occur in
that order (the group table is emitted in ascending key order). -/
theorem pair_sublist_groupbySum {pairs : List (String × Int)} {a b : String} {v w : Int}
    (ha : (a, v) ∈ groupbySum pairs) (hb : (b, w) ∈ groupbySum pairs)
    (hab : StrLT a b) : List.Sublist [(a, v), (b, w)] (groupbySum pairs) := by
  have ha' := mem_groupbySum ha
  have hb' := mem_groupbySum hb
  have hks : List.Sublist [a, b] (((pairs.map (fun q => q.1)).dedup).insertionSort StrLE) :=
    sublist_pair_of_sorted (List.sorted_insertionSort _ _) ha'.1 hb'.1 hab
  have hmap := hks.map (fun k => (k, sumFor pairs k))
  simp only [List.map_cons, List.map_nil] at hmap
  rw [← ha'.2, ← hb'.2] at hmap
  exact hmap

/-- C1 counterexample: referee "B"'s earliest record (day 1) precedes referee
"A"'s (day 2) in the input, the summed totals tie at 5, yet the output table
ranks "A" first — the tie is not broken by first appearance. -/
theorem C1_tiebreak_counterexample :
    (([⟨some 1, "B", 5, "", ""⟩, ⟨some 2, "A", 5, "", ""⟩] : List Row).map
        (fun r => r.domare)) = ["B", "A"] ∧
      RefStat.filter_data_by_date (some ⟨false, false,
          [⟨some 1, "B", 5, "", ""⟩, ⟨some 2, "A", 5, "", ""⟩]⟩)
        (.valid 0) (.valid 10) none none none =
        some ([("A", 5), ("B", 5)],
          [⟨some 1, "B", 5, "", ""⟩, ⟨some 2, "A", 5, "", ""⟩]) := by decide

/-- C1 amended: when two referees' summed totals are equal, the one whose
name is smaller in Python string order precedes the other in the aggregated
leaderboard and hence receives the lower rank (grouping emits its keys in
ascending order, and the descending sort keeps that order for equal totals);
the order of first appearance in the input plays no role. -/
theorem C1_tiebreak_by_name (df : Frame) (s e : Int)
    (sport district : Option String) (mm : Option Int)
    (t : List (String × Int)) (fr : List Row)
    (hres : RefStat.filter_data_by_date (some df) (.valid s) (.valid e)
      sport district mm = some (t, fr))
    (a b : String) (v : Int) (hab : StrLT a b)
    (ha : (a, v) ∈ t) (hb : (b, v) ∈ t) :
    List.Sublist [(a, v), (b, v)] t := by
  obtain ⟨f2, h2, h3, ht⟩ := filter_inv hres
  subst ht
  unfold sortDesc at ha hb ⊢
  rw [List.mem_insertionSort] at ha hb
  refine List.pair_sublist_insertionSort
    (r := fun x y : String × Int => y.2 ≤ x.2) (le_refl v) ?_
  by_cases hmm : mmActive mm = true
  · rw [if_pos hmm] at ha hb ⊢
    have ha' := List.mem_filter.mp ha
    have hb' := List.mem_filter.mp hb
    have hsub := pair_sublist_groupbySum ha'.1 hb'.1 hab
    have hfilt := hsub.filter (fun p => decide (mm.getD 0 ≤ p.2))
    rw [show [((a, v) : String × Int), (b, v)].filter
          (fun p => decide (mm.getD 0 ≤ p.2)) = [(a, v), (b, v)] by
      simp [List.filter_cons, ha'.2, hb'.2]] at hfilt
    exact hfilt
  · rw [if_neg hmm] at ha hb ⊢
    exact pair_sublist_groupbySum ha hb hab

/-- Witness for C1's amended theorem at a concrete input: with tied totals,
"A" precedes "B" in the table even though "B" appears first in the input. -/
theorem C1_tiebreak_by_name_witness :
    StrLT "A" "B" ∧ List.Sublist [(("A", 5) : String × Int), ("B", 5)] [("A", 5), ("B", 5)] :=
  ⟨by decide,
    C1_tiebreak_by_name ⟨false, false,
        [⟨some 1, "B", 5, "", ""⟩, ⟨some 2, "A", 5, "", ""⟩]⟩
      0 10 none none none [("A", 5), ("B", 5)]
      [⟨some 1, "B", 5, "", ""⟩, ⟨some 2, "A", 5, "", ""⟩]
      (by decide) "A" "B" 5 (by decide) (by decide) (by decide)⟩

/-! ### C8: the summary's most-active referee vs the leaderboard's rank 1 -/

instance : IsTotal (String × Int) (fun x y : String × Int => y.2 ≤ x.2) :=
  ⟨fun a b => le_total b.2 a.2⟩

instance : IsTrans (String × Int) (fun x y : String × Int => y.2 ≤ x.2) :=
  ⟨fun _ _ _ h1 h2 => le_trans h2 h1⟩

/-- In a table whose keys are ascending, two entries with keys in strict
order occur in that order. -/
theorem sublist_pair_of_keySorted :
    ∀ {g : List (String × Int)}, g.Pairwise (fun x y => StrLE x.1 y.1) →
      ∀ {x q : String × Int}, x ∈ g → q ∈ g → StrLT x.1 q.1 →
        List.Sublist [x, q] g := by
  intro g
  induction g with
  | nil => intro _ x q hx _ _; exact absurd hx (List.not_mem_nil _)
  | cons p gs ih =>
    intro hs x q hx hq hxq
    have hne : x ≠ q := by
      rintro rfl
      simp [StrLT, lexLt_irrefl] at hxq
    by_cases hxp : x = p
    · subst hxp
      have hq' : q ∈ gs := by
        cases List.mem_cons.mp hq with
        | inl h => exact absurd h.symm hne
        | inr h => exact h
      exact (List.singleton_sublist.mpr hq').cons₂ x
    · have hx' : x ∈ gs := by
        cases List.mem_cons.mp hx with
        | inl h => exact absurd h hxp
        | inr h => exact h
      by_cases hqp : q = p
      · subst hqp
        have hle : StrLE q.1 x.1 := List.rel_of_pairwise_cons hs hx'
        unfold StrLE at hle
        unfold StrLT at hxq
        rw [hxq] at hle
        exact absurd hle (by decide)
      · have hq' : q ∈ gs := by
          cases List.mem_cons.mp hq with
          | inl h => exact absurd h hqp
          | inr h => exact h
        exact (ih (List.Pairwise.of_cons hs) hx' hq' hxq).cons p

/-- Entries of a table with distinct keys are determined by their key. -/
theorem eq_of_key_eq : ∀ {g : List (String × Int)},
    (g.map (fun p => p.1)).Nodup → ∀ {x y : String × Int}, x ∈ g → y ∈ g →
      x.1 = y.1 → x = y := by
  intro g
  induction g with
  | nil => intro _ x y hx; exact absurd hx (List.not_mem_nil _)
  | cons p gs ih =>
    intro hnd x y hx hy hkey
    rw [List.map_cons, List.nodup_cons] at hnd
    cases List.mem_cons.mp hx with
    | inl hxp =>
      cases List.mem_cons.mp hy with
      | inl hyp => rw [hxp, hyp]
      | inr hy' =>
        exfalso
        apply hnd.1
        have hmem : y.1 ∈ gs.map (fun p => p.1) := List.mem_map_of_mem _ hy'
        rw [← hkey, hxp] at hmem
        exact hmem
    | inr hx' =>
      cases List.mem_cons.mp hy with
      | inl hyp =>
        exfalso
        apply hnd.1
        have hmem : x.1 ∈ gs.map (fun p => p.1) := List.mem_map_of_mem _ hx'
        rw [hkey, hyp] at hmem
        exact hmem
      | inr hy' => exact ih hnd.2 hx' hy' hkey


/-- Head of the descending stable sort of a key-ascending table with distinct
keys: the entry with maximal total and, among tied maximal totals, the least
key. -/
theorem head_sortDesc_char (g : List (String × Int))
    (hsort : g.Pairwise (fun x y => StrLE x.1 y.1))
    (hnd : (g.map (fun p => p.1)).Nodup) (hne : g ≠ []) :
    ∃ q rest, sortDesc g = q :: rest ∧ q ∈ g ∧ (∀ x ∈ g, x.2 ≤ q.2) ∧
      (∀ x ∈ g, x.2 = q.2 → StrLE q.1 x.1) := by
  cases hq : sortDesc g with
  | nil =>
    exfalso
    apply hne
    have hlen := congrArg List.length hq
    simp only [sortDesc, List.length_insertionSort, List.length_nil] at hlen
    exact List.length_eq_zero.mp hlen
  | cons q rest =>
    have hqg : q ∈ g := by
      have hmem : q ∈ sortDesc g := by rw [hq]; exact List.mem_cons_self q rest
      exact (List.mem_insertionSort _).mp hmem
    have hsorted : List.Sorted (fun x y : String × Int => y.2 ≤ x.2) (q :: rest) := by
      rw [← hq]
      exact List.sorted_insertionSort _ g
    refine ⟨q, rest, rfl, hqg, ?_, ?_⟩
    · intro x hx
      have hx' : x ∈ q :: rest := by
        rw [← hq]
        exact (List.mem_insertionSort _).mpr hx
      cases List.mem_cons.mp hx' with
      | inl h => rw [h]
      | inr h => exact List.rel_of_sorted_cons hsorted x h
    · intro x hx hxv
      by_contra hqx
      have hlt : StrLT x.1 q.1 := by
        unfold StrLE at hqx
        unfold StrLT
        cases hcase : lexLt x.1.data q.1.data with
        | true => rfl
        | false => exact absurd hcase hqx
      have hxq : x ≠ q := by
        rintro rfl
        simp [StrLT, lexLt_irrefl] at hlt
      have hpair : List.Sublist [x, q] g := sublist_pair_of_keySorted hsort hx hqg hlt
      have hstable : List.Sublist [x, q] (sortDesc g) :=
        List.pair_sublist_insertionSort
          (r := fun a b : String × Int => b.2 ≤ a.2) hxv.ge hpair
      rw [hq] at hstable
      cases hstable with
      | cons _ h =>
        have hqrest : q ∈ rest := h.subset (by simp)
        have hnds : ((q :: rest).map (fun p => p.1)).Nodup := by
          rw [← hq]
          have hperm := (List.perm_insertionSort
            (fun a b : String × Int => b.2 ≤ a.2) g).map (fun p => p.1)
          exact hperm.nodup_iff.mpr hnd
        rw [List.map_cons, List.nodup_cons] at hnds
        exact hnds.1 (List.mem_map_of_mem _ hqrest)
      | cons₂ _ h => exact hxq rfl

/-- In a table with distinct keys, the maximal-total least-key entry is
unique. -/
theorem max_entry_unique {g : List (String × Int)}
    (hnd : (g.map (fun p => p.1)).Nodup) {q1 q2 : String × Int}
    (h1 : q1 ∈ g) (h2 : q2 ∈ g)
    (hv1 : ∀ x ∈ g, x.2 ≤ q1.2) (hk1 : ∀ x ∈ g, x.2 = q1.2 → StrLE q1.1 x.1)
    (hv2 : ∀ x ∈ g, x.2 ≤ q2.2) (hk2 : ∀ x ∈ g, x.2 = q2.2 → StrLE q2.1 x.1) :
    q1 = q2 := by
  have hv : q1.2 = q2.2 := le_antisymm (hv2 q1 h1) (hv1 q2 h2)
  have ha : StrLE q1.1 q2.1 := hk1 q2 h2 hv.symm
  have hb : StrLE q2.1 q1.1 := hk2 q1 h1 hv
  exact eq_of_key_eq hnd h1 h2 (antisymm ha hb)

/-- The group table is emitted in ascending key order. -/
theorem groupbySum_keySorted (pairs : List (String × Int)) :
    (groupbySum pairs).Pairwise (fun x y => StrLE x.1 y.1) := by
  unfold groupbySum
  have hs : (((pairs.map (fun p => p.1)).dedup).insertionSort StrLE).Pairwise StrLE :=
    List.sorted_insertionSort StrLE _
  exact List.Pairwise.map _ (fun a b h => h) hs

/-- The group table carries each referee at most once. -/
theorem groupbySum_keysNodup (pairs : List (String × Int)) :
    ((groupbySum pairs).map (fun p => p.1)).Nodup := by
  unfold groupbySum
  rw [List.map_map]
  have hid : ((fun p => (p : String × Int).1) ∘ fun k => (k, sumFor pairs k)) =
      id := rfl
  rw [hid, List.map_id]
  exact ((List.perm_insertionSort _ _).nodup_iff).mpr (List.nodup_dedup _)

theorem sumFor_eq_zero_of_not_mem {ps : List (String × Int)} {k : String}
    (h : k ∉ ps.map (fun p => p.1)) : sumFor ps k = 0 := by
  unfold sumFor
  have hfil : ps.filter (fun p => p.1 == k) = [] := by
    rw [List.filter_eq_nil]
    intro p hp
    simp only [beq_iff_eq]
    rintro rfl
    exact h (List.mem_map_of_mem _ hp)
  rw [hfil]
  rfl

theorem map_sumFor_eq_self : ∀ {t : List (String × Int)},
    ((t.map (fun p => p.1)).Nodup) →
      (t.map (fun p => p.1)).map (fun k => (k, sumFor t k)) = t := by
  intro t
  induction t with
  | nil => intro _; rfl
  | cons p ps ih =>
    intro hnd
    rw [List.map_cons, List.nodup_cons] at hnd
    rw [List.map_cons, List.map_cons]
    have hhead : sumFor (p :: ps) p.1 = p.2 := by
      rw [sumFor_cons, sumFor_eq_zero_of_not_mem hnd.1]
      simp
    have htail : (ps.map (fun p => p.1)).map (fun k => (k, sumFor (p :: ps) k)) =
        (ps.map (fun p => p.1)).map (fun k => (k, sumFor ps k)) := by
      apply List.map_congr_left
      intro k hk
      have hne : ¬(p.1 == k) = true := by
        simp only [beq_iff_eq]
        rintro rfl
        exact hnd.1 hk
      rw [sumFor_cons, if_neg hne]
      simp
    rw [hhead, htail, ih hnd.2]

/-- On a table whose keys are already distinct, regrouping permutes the
table (each group is a single original entry). -/
theorem groupbySum_of_nodupKeys {t : List (String × Int)}
    (hnd : (t.map (fun p => p.1)).Nodup) : List.Perm (groupbySum t) t := by
  unfold groupbySum
  rw [List.dedup_eq_self.mpr hnd]
  have hperm := (List.perm_insertionSort StrLE (t.map (fun p => p.1))).map
    (fun k => (k, sumFor t k))
  rw [map_sumFor_eq_self hnd] at hperm
  exact hperm

theorem generate_referee_stats_ne_nil {t : List (String × Int)} {st : Stats}
    (h : generate_referee_stats t = some st) : t ≠ [] := by
  rintro rfl
  simp [generate_referee_stats] at h

theorem generate_referee_stats_most (t : List (String × Int)) (st : Stats)
    (h : generate_referee_stats t = some st) :
    st.most_active =
        (match sortDesc (groupbySum t) with | [] => "N/A" | p :: _ => p.1) ∧
      st.most_active_count =
        (match sortDesc (groupbySum t) with | [] => 0 | p :: _ => p.2) := by
  unfold generate_referee_stats at h
  by_cases he : t.isEmpty
  · simp [he] at h
  · simp only [he, Bool.false_eq_true, if_false, Option.some.injEq] at h
    rw [← h]
    exact ⟨rfl, rfl⟩

/-- C8 counterexample: totals tie at 5 and referee "B" appears first in the
input, yet the summary's most-active referee is "A" — the tie is not broken
by first appearance (it is broken by ascending name, consistently with the
leaderboard). -/
theorem C8_most_active_counterexample :
    (RefStat.mainStats (some ⟨false, false,
          [⟨some 1, "B", 5, "", ""⟩, ⟨some 2, "A", 5, "", ""⟩]⟩)
        (.valid 0) (.valid 10) none none none).map Stats.most_active = some "A" ∧
      (([⟨some 1, "B", 5, "", ""⟩, ⟨some 2, "A", 5, "", ""⟩] : List Row).map
        (fun r => r.domare)) = ["B", "A"] := by decide

/-- C8 amended: whenever the summary is produced (the leaderboard is
non-empty), its most-active referee and count equal the referee and total of
the leaderboard's first (rank-1) row; ties for the maximal total are broken
in both places by the same ascending-name rule inherited from the key-sorted
grouping, not by first appearance. -/
theorem C8_most_active_matches_rank1 (df : Frame) (sd ed : RawDate)
    (sport district : Option String) (mm : Option Int)
    (t : List (String × Int)) (fr : List Row) (st : Stats)
    (hres : RefStat.filter_data_by_date (some df) sd ed sport district mm = some (t, fr))
    (hst : generate_referee_stats t = some st) :
    t ≠ [] ∧ st.most_active = (t.headD ("N/A", 0)).1 ∧
      st.most_active_count = (t.headD ("N/A", 0)).2 := by
  have htne : t ≠ [] := generate_referee_stats_ne_nil hst
  cases sd with
  | invalid => simp [RefStat.filter_data_by_date, to_datetime] at hres
  | valid s =>
    cases ed with
    | invalid => simp [RefStat.filter_data_by_date, to_datetime] at hres
    | valid e =>
      obtain ⟨f2, h2, h3, ht⟩ := filter_inv hres
      set g2 := (if mmActive mm = true then
          (groupbySum (rowPairs fr)).filter (fun p => decide (mm.getD 0 ≤ p.2))
        else groupbySum (rowPairs fr)) with hg2
      have hsort2 : g2.Pairwise (fun x y => StrLE x.1 y.1) := by
        rw [hg2]
        by_cases hmm : mmActive mm = true
        · rw [if_pos hmm]
          exact (groupbySum_keySorted _).sublist (List.filter_sublist _)
        · rw [if_neg hmm]
          exact groupbySum_keySorted _
      have hnd2 : (g2.map (fun p => p.1)).Nodup := by
        rw [hg2]
        by_cases hmm : mmActive mm = true
        · rw [if_pos hmm]
          exact (groupbySum_keysNodup _).sublist ((List.filter_sublist _).map _)
        · rw [if_neg hmm]
          exact groupbySum_keysNodup _
      have hg2ne : g2 ≠ [] := by
        intro h0
        apply htne
        rw [ht, h0]
        rfl
      obtain ⟨q, rest, hqrest, hqg, hqmax, hqkey⟩ :=
        head_sortDesc_char g2 hsort2 hnd2 hg2ne
      have htq : t = q :: rest := by rw [ht, hqrest]
      have hpermt : List.Perm t g2 := by
        rw [ht]
        exact List.perm_insertionSort _ g2
      have hndt : (t.map (fun p => p.1)).Nodup := (hpermt.map _).nodup_iff.mpr hnd2
      have hpermg : List.Perm (groupbySum t) t := groupbySum_of_nodupKeys hndt
      have hgne : groupbySum t ≠ [] := by
        intro h0
        apply htne
        have h1 : List.Perm ([] : List (String × Int)) t := h0 ▸ hpermg
        exact h1.symm.eq_nil
      obtain ⟨q', rest', hq'rest, hq'g, hq'max, hq'key⟩ :=
        head_sortDesc_char (groupbySum t) (groupbySum_keySorted t)
          (groupbySum_keysNodup t) hgne
      have hq'g2 : q' ∈ g2 := hpermt.subset (hpermg.subset hq'g)
      have hq'max2 : ∀ x ∈ g2, x.2 ≤ q'.2 := fun x hx =>
        hq'max x (hpermg.mem_iff.mpr (hpermt.mem_iff.mpr hx))
      have hq'key2 : ∀ x ∈ g2, x.2 = q'.2 → StrLE q'.1 x.1 := fun x hx hv =>
        hq'key x (hpermg.mem_iff.mpr (hpermt.mem_iff.mpr hx)) hv
      have heq : q' = q :=
        max_entry_unique hnd2 hq'g2 hqg hq'max2 hq'key2 hqmax hqkey
      obtain ⟨hma, hmc⟩ := generate_referee_stats_most t st hst
      refine ⟨htne, ?_, ?_⟩
      · rw [hma, hq'rest, htq]
        simp only [List.headD_cons]
        exact congrArg (fun p => p.1) heq
      · rw [hmc, hq'rest, htq]
        simp only [List.headD_cons]
        exact congrArg (fun p => p.2) heq

/-- Witness for C8's amended theorem at a concrete single-referee input. -/
theorem C8_most_active_matches_rank1_witness :
    ([(("A", 5) : String × Int)] ≠ []) ∧
      (⟨5, 1, (5 : Rat), "A", 5⟩ : Stats).most_active =
        (([(("A", 5) : String × Int)]).headD ("N/A", 0)).1 ∧
      (⟨5, 1, (5 : Rat), "A", 5⟩ : Stats).most_active_count =
        (([(("A", 5) : String × Int)]).headD ("N/A", 0)).2 :=
  C8_most_active_matches_rank1 ⟨false, false, [⟨some 1, "A", 5, "", ""⟩]⟩
    (.valid 0) (.valid 10) none none none [("A", 5)] [⟨some 1, "A", 5, "", ""⟩]
    ⟨5, 1, (5 : Rat), "A", 5⟩ (by decide) (generate_referee_stats_single "A" 5)

/-! ### C10: the legacy app.py filter vs the RefStat filter -/

/-- The load step of RefStat.py (`pd.to_datetime(df["Date"], errors='coerce')`
at lines 106/253) applied to one raw row: dates become day numbers or NaT;
the optional categorical columns are absent. -/
def appToRow (a : AppRow) : Row :=
  ⟨to_datetime a.dateStr, a.domare, a.matcher, "", ""⟩

theorem app_pairs_eq (s e : Int) : ∀ (rows : List AppRow),
    (∀ r ∈ rows, (to_datetime r.dateStr).isSome) →
    ((rows.map (fun r => (r, (to_datetime r.dateStr).getD 0))).filter
        (fun rd => decide (s ≤ rd.2) && decide (rd.2 ≤ e))).map
      (fun rd => (rd.1.domare, rd.1.matcher)) =
    rowPairs ((rows.map appToRow).filter (dateKeep s e)) := by
  intro rows
  induction rows with
  | nil => intro _; rfl
  | cons a rows ih =>
    intro h
    have ha := h a (List.mem_cons_self _ _)
    obtain ⟨d, hd⟩ := Option.isSome_iff_exists.mp ha
    have ih' := ih (fun r hr => h r (List.mem_cons_of_mem a hr))
    simp only [List.map_cons, List.filter_cons, hd, Option.getD_some, appToRow, dateKeep,
      Bool.and_eq_true, decide_eq_true_eq]
    by_cases hc : s ≤ d ∧ d ≤ e
    · simp [hc, ih', rowPairs]
    · simp [hc, ih', rowPairs]

/-- C10: on a dataset whose Date column parses completely and with parseable
bounds, the legacy app.py filter returns exactly the grouped,
descending-sorted referee/total table that is the first component of
RefStat.py's filter invoked with no sport filter, no district filter and no
minMatches threshold. -/
theorem C10_app_refstat_equivalence (rows : List AppRow) (sd ed : RawDate)
    (hrows : ∀ r ∈ rows, (to_datetime r.dateStr).isSome)
    (hsd : (to_datetime sd).isSome) (hed : (to_datetime ed).isSome) :
    App.filter_data_by_date rows sd ed =
      (RefStat.filter_data_by_date (some ⟨false, false, rows.map appToRow⟩)
        sd ed none none none).map (fun x => x.1) := by
  cases sd with
  | invalid => simp [to_datetime] at hsd
  | valid s =>
    cases ed with
    | invalid => simp [to_datetime] at hed
    | valid e =>
      rw [filter_noCriteria]
      unfold App.filter_data_by_date
      rw [if_pos (List.all_eq_true.mpr hrows)]
      show some (sortDesc (groupbySum
          (((rows.map (fun r => (r, (to_datetime r.dateStr).getD 0))).filter
            (fun rd => decide (s ≤ rd.2) && decide (rd.2 ≤ e))).map
            (fun rd => (rd.1.domare, rd.1.matcher))))) =
        some (sortDesc (groupbySum
          (rowPairs ((rows.map appToRow).filter (dateKeep s e)))))
      rw [app_pairs_eq s e rows hrows]

/-- Witness for C10 at a concrete input. -/
theorem C10_app_refstat_equivalence_witness :
    App.filter_data_by_date [⟨.valid 1, "A", 3⟩] (.valid 0) (.valid 10) =
      (RefStat.filter_data_by_date
        (some ⟨false, false, [⟨.valid 1, "A", 3⟩].map appToRow⟩)
        (.valid 0) (.valid 10) none none none).map (fun x => x.1) :=
  C10_app_refstat_equivalence [⟨.valid 1, "A", 3⟩] (.valid 0) (.valid 10)
    (by decide) (by decide) (by decide)

/-! ### C9: invocations do not mutate the caller's dataset -/

/-- A pandas object held in the interpreter's object store: a RefStat-style
frame, an app.py-style frame (with its optional temporary DateTemp column,
kept as a parallel list of converted day numbers), or a grouped table. -/
inductive PdVal where
  | rframe (hasSport hasDistrict : Bool) (rows : List Row)
  | aframe (rows : List AppRow) (temp : Option (List Int))
  | table (t : List (String × Int))
deriving DecidableEq, Repr

/-- The object store: object identities are list indices.  `copy` and every
non-inplace pandas operation allocate at a fresh index; inplace operations
overwrite the entry at an existing index. -/
abbrev Store := List PdVal

/-- RefStat.py `filter_data_by_date` over the explicit object store: the
`df.copy()` and each non-inplace selection/grouping allocate fresh objects;
nothing is overwritten.  Returns the (table, filtered rows) result together
with the final store; `none` on the error paths as in the pure embedding. -/
def RefStat.filter_data_by_date_st (st : Store) (df : Nat) (start_date end_date : RawDate)
    (sport district : Option String) (min_matches : Option Int) :
    Option ((List (String × Int) × List Row) × Store) :=
  match st[df]? with
  | some (PdVal.rframe hs hd rows) =>
    let st1 := st ++ [PdVal.rframe hs hd rows]
    match to_datetime start_date, to_datetime end_date with
    | some s, some e =>
      let f1 := rows.filter (dateKeep s e)
      let st2 := st1 ++ [PdVal.rframe hs hd f1]
      match applyCat (catActive sport) hs (sport.getD "") (fun r => r.sport) f1 with
      | some f2 =>
        let st3 := st2 ++ [PdVal.rframe hs hd f2]
        match applyCat (catActive district) hd (district.getD "")
            (fun r => r.district) f2 with
        | some f3 =>
          let st4 := st3 ++ [PdVal.rframe hs hd f3]
          let grouped := groupbySum (rowPairs f3)
          let g2 := if mmActive min_matches then
              grouped.filter (fun p => decide (min_matches.getD 0 ≤ p.2))
            else grouped
          some ((sortDesc g2, f3), st4 ++ [PdVal.table (sortDesc g2)])
        | none => none
      | none => none
    | _, _ => none
  | _ => none

/-- app.py `filter_data_by_date` over the explicit object store: `df.copy()`
allocates; the `DateTemp` column assignment and the inplace `drop` overwrite
the copy and the mask-selected frame respectively — never the input; the
mask selection and grouping allocate.  `none` when `pd.to_datetime` raises. -/
def App.filter_data_by_date_st (st : Store) (df : Nat) (start_date end_date : RawDate) :
    Option (List (String × Int) × Store) :=
  match st[df]? with
  | some (PdVal.aframe rows temp0) =>
    let cId := st.length
    let st1 := st ++ [PdVal.aframe rows temp0]
    if rows.all (fun r => (to_datetime r.dateStr).isSome) then
      let ds := rows.map (fun r => (to_datetime r.dateStr).getD 0)
      let st2 := st1.set cId (PdVal.aframe rows (some ds))
      match to_datetime start_date, to_datetime end_date with
      | some s, some e =>
        let kept := (rows.zip ds).filter
          (fun rd => decide (s ≤ rd.2) && decide (rd.2 ≤ e))
        let fId := st2.length
        let st3 := st2 ++ [PdVal.aframe (kept.map (fun rd => rd.1))
          (some (kept.map (fun rd => rd.2)))]
        let st4 := st3.set fId (PdVal.aframe (kept.map (fun rd => rd.1)) none)
        let grouped := sortDesc (groupbySum
          ((kept.map (fun rd => rd.1)).map (fun r => (r.domare, r.matcher))))
        let st5 := st4 ++ [PdVal.table grouped]
        some (grouped, st5)
      | _, _ => none
    else none
  | _ => none

theorem to_datetime_valid (d : Int) : to_datetime (RawDate.valid d) = some d := rfl

/-- C9: a completed filter invocation leaves the caller's dataframe object
unchanged in the store, for both implementations: every pandas step either
allocates a fresh object (`copy`, mask selections, grouping, sorting) or
overwrites only freshly allocated objects (app.py's DateTemp assignment and
inplace drop hit the copy, never the input).  The summarizer reads only the
returned table value and performs no store operation, so one whole
filter-aggregate-summarize cycle preserves the caller's dataset. -/
theorem C9_input_frame_preserved :
    (∀ (st : Store) (i : Nat) (sd ed : RawDate) (sport district : Option String)
      (mm : Option Int) (r : (List (String × Int) × List Row) × Store),
      RefStat.filter_data_by_date_st st i sd ed sport district mm = some r →
        r.2[i]? = st[i]?) ∧
    (∀ (st : Store) (i : Nat) (sd ed : RawDate) (r : List (String × Int) × Store),
      App.filter_data_by_date_st st i sd ed = some r → r.2[i]? = st[i]?) := by
  constructor
  · intro st i sd ed sport district mm r hres
    cases hv : st[i]? with
    | none =>
      unfold RefStat.filter_data_by_date_st at hres
      rw [hv] at hres
      cases hres
    | some v =>
      have hlt : i < st.length := by
        by_contra hge
        rw [List.getElem?_eq_none (Nat.le_of_not_lt hge)] at hv
        cases hv
      unfold RefStat.filter_data_by_date_st at hres
      rw [hv] at hres
      cases v with
      | aframe _ _ => cases hres
      | table _ => cases hres
      | rframe hs hd rows =>
        cases sd with
        | invalid => simp [to_datetime] at hres
        | valid s =>
          cases ed with
          | invalid => simp [to_datetime] at hres
          | valid e =>
            simp only [to_datetime] at hres
            cases h2 : applyCat (catActive sport) hs (sport.getD "")
                (fun r => r.sport) (rows.filter (dateKeep s e)) with
            | none => rw [h2] at hres; cases hres
            | some f2 =>
              rw [h2] at hres
              simp only [] at hres
              cases h3 : applyCat (catActive district) hd (district.getD "")
                  (fun r => r.district) f2 with
              | none => rw [h3] at hres; cases hres
              | some f3 =>
                rw [h3] at hres
                cases hres
                simp only [List.append_assoc]
                rw [List.getElem?_append_left hlt]
                exact hv
  · intro st i sd ed r hres
    cases hv : st[i]? with
    | none =>
      unfold App.filter_data_by_date_st at hres
      rw [hv] at hres
      cases hres
    | some v =>
      have hlt : i < st.length := by
        by_contra hge
        rw [List.getElem?_eq_none (Nat.le_of_not_lt hge)] at hv
        cases hv
      unfold App.filter_data_by_date_st at hres
      rw [hv] at hres
      cases v with
      | rframe _ _ _ => cases hres
      | table _ => cases hres
      | aframe rows temp0 =>
        simp only [] at hres
        by_cases hall : rows.all (fun r => (to_datetime r.dateStr).isSome) = true
        · rw [if_pos hall] at hres
          cases sd with
          | invalid => simp [to_datetime] at hres
          | valid s =>
            cases ed with
            | invalid => simp [to_datetime] at hres
            | valid e =>
              simp only [to_datetime_valid] at hres
              cases hres
              have hne1 : st.length ≠ i := Nat.ne_of_gt hlt
              have hlen1 : i < ((st ++ [PdVal.aframe rows temp0]).set st.length
                  (PdVal.aframe rows (some (rows.map
                    (fun r => (to_datetime r.dateStr).getD 0))))).length := by
                simp
                omega
              have hne2 : ((st ++ [PdVal.aframe rows temp0]).set st.length
                  (PdVal.aframe rows (some (rows.map
                    (fun r => (to_datetime r.dateStr).getD 0))))).length ≠ i := by
                simp
                omega
              rw [List.getElem?_append_left (by simp; omega),
                List.getElem?_set_ne hne2,
                List.getElem?_append_left hlen1,
                List.getElem?_set_ne hne1,
                List.getElem?_append_left hlt]
              exact hv
        · rw [if_neg hall] at hres
          cases hres

/-- Witness for C9 at concrete one-frame stores, for both implementations. -/
theorem C9_input_frame_preserved_witness :
    ([PdVal.rframe false false [⟨some 1, "A", 3, "", ""⟩],
      PdVal.rframe false false [⟨some 1, "A", 3, "", ""⟩],
      PdVal.rframe false false [⟨some 1, "A", 3, "", ""⟩],
      PdVal.rframe false false [⟨some 1, "A", 3, "", ""⟩],
      PdVal.rframe false false [⟨some 1, "A", 3, "", ""⟩],
      PdVal.table [("A", 3)]] : Store)[0]? =
      ([PdVal.rframe false false [⟨some 1, "A", 3, "", ""⟩]] : Store)[0]? ∧
    ([PdVal.aframe [⟨.valid 1, "A", 3⟩] none,
      PdVal.aframe [⟨.valid 1, "A", 3⟩] (some [1]),
      PdVal.aframe [⟨.valid 1, "A", 3⟩] none,
      PdVal.table [("A", 3)]] : Store)[0]? =
      ([PdVal.aframe [⟨.valid 1, "A", 3⟩] none] : Store)[0]? :=
  ⟨C9_input_frame_preserved.1
      [PdVal.rframe false false [⟨some 1, "A", 3, "", ""⟩]] 0
      (.valid 0) (.valid 10) none none none
      (([("A", 3)], [⟨some 1, "A", 3, "", ""⟩]),
        [PdVal.rframe false false [⟨some 1, "A", 3, "", ""⟩],
         PdVal.rframe false false [⟨some 1, "A", 3, "", ""⟩],
         PdVal.rframe false false [⟨some 1, "A", 3, "", ""⟩],
         PdVal.rframe false false [⟨some 1, "A", 3, "", ""⟩],
         PdVal.rframe false false [⟨some 1, "A", 3, "", ""⟩],
         PdVal.table [("A", 3)]]) (by decide),
    C9_input_frame_preserved.2
      [PdVal.aframe [⟨.valid 1, "A", 3⟩] none] 0 (.valid 0) (.valid 10)
      ([("A", 3)],
        [PdVal.aframe [⟨.valid 1, "A", 3⟩] none,
         PdVal.aframe [⟨.valid 1, "A", 3⟩] (some [1]),
         PdVal.aframe [⟨.valid 1, "A", 3⟩] none,
         PdVal.table [("A", 3)]]) (by decide)⟩
